import Mathlib

/-!
# Bloggo content pipeline — shallow embedding

A shallow embedding of the bloggo static-site generator's content pipeline
(`src/lib.rs`, `src/value.rs`, `src/atom.rs`, `src/error.rs`), together with
theorems settling the specification claims about it.

Modelling conventions:
* Machine integers (`i64`, `u64`) are modelled as `Int`/`Nat`; the pipeline
  never performs arithmetic that can overflow on them (it only moves them).
* An IEEE-754 `f64` is never computed with by the pipeline either — floats
  are only carried from the YAML decoder into the `Value` model — so an `f64`
  is modelled symbolically by its provenance (`F64`).
* A text stream consumed through `BufRead::read_line` is modelled by its
  (lossless) decomposition into the list of lines `read_line` would return,
  in order; `read_to_string` on the remainder is the concatenation of the
  remaining lines.
* `std::path::Path` values are modelled as lists of components;
  `to_string_lossy` joins them with `/`.
* Fallible Rust functions returning `Result<T, Error>` become
  `Except Error T`.
-/

/-- Model of an IEEE-754 double as it appears in the pipeline: doubles are
never computed with, only produced by casts inside `serde_yaml` or carried
from the YAML text, so they are represented symbolically by provenance. -/
inductive F64 : Type
  /-- the result of a `u64 as f64` cast (`serde_yaml`'s `N::PosInt` case) -/
  | ofU64 (n : Nat)
  /-- the result of an `i64 as f64` cast (`serde_yaml`'s `N::NegInt` case) -/
  | ofI64 (i : Int)
  /-- a float literal decoded from the YAML text itself -/
  | lit (q : Rat)
deriving DecidableEq

/-- Model of `serde_yaml::Number` (an `N` of `PosInt(u64)`, `NegInt(i64)` or
`Float(f64)`). -/
inductive YNumber : Type
  | posInt (n : Nat)
  | negInt (i : Int)
  | float (f : F64)
deriving DecidableEq

/-- `serde_yaml::Number::as_f64`: every variant is representable, so the
result is always `some` (`PosInt`/`NegInt` are cast, `Float` is returned). -/
def YNumber.as_f64 : YNumber → Option F64
  | .posInt n => some (.ofU64 n)
  | .negInt i => some (.ofI64 i)
  | .float f => some f

/-- `serde_yaml::Number::as_i64`: `PosInt` values above `i64::MAX` are not
representable; `Float` is never representable. -/
def YNumber.as_i64 : YNumber → Option Int
  | .posInt n => if n ≤ 2 ^ 63 - 1 then some (Int.ofNat n) else none
  | .negInt i => some i
  | .float _ => none

/-- Display form of a `serde_yaml` number, used only in the error message of
the (dead, see `c2_every_yaml_number_becomes_float`) unrepresentable-number
branch. -/
def YNumber.display : YNumber → String
  | .posInt n => toString n
  | .negInt i => toString i
  | .float _ => "<f64>"

/-- Model of `serde_yaml::Value`. Mappings preserve YAML document order and
may have arbitrary keys; `Tagged` wraps an inner value. -/
inductive YValue : Type
  | null
  | bool (b : Bool)
  | number (n : YNumber)
  | string (s : String)
  | sequence (xs : List YValue)
  | mapping (m : List (YValue × YValue))
  | tagged (tag : String) (v : YValue)

/-- `serde_yaml::Value::as_str`. -/
def YValue.as_str : YValue → Option String
  | .string s => some s
  | _ => none

/-- `bloggo::Number` (`src/value.rs`): an integer or floating point number. -/
inductive Number : Type
  | integer (i : Int)
  | float (f : F64)
deriving DecidableEq

/-- `bloggo::Value` (`src/value.rs`): a value parsed from post front matter.
`map` carries the entries of a `BTreeMap<String, Value>` as a key-sorted
association list. -/
inductive Value : Type
  | null
  | boolean (b : Bool)
  | number (n : Number)
  | string (s : String)
  | array (xs : List Value)
  | map (m : List (String × Value))

/-- `Value::as_string`: the wrapped string, or `none`. -/
def Value.as_string : Value → Option String
  | .string s => some s
  | _ => none

/-- A `Post` is a `BTreeMap<String, Value>`, modelled as a key-sorted
association list with unique keys (the representation `Value.map` carries). -/
abbrev Post := List (String × Value)

/-- Lexicographic order on char lists: the order `Ord for String` gives Rust
(UTF-8 byte order coincides with code-point order). -/
def charListLt : List Char → List Char → Bool
  | [], [] => false
  | [], _ :: _ => true
  | _ :: _, [] => false
  | a :: as, b :: bs => if a < b then true else if b < a then false else charListLt as bs

/-- Rust's `Ord for String`, as a boolean. -/
def strLtb (a b : String) : Bool :=
  charListLt a.data b.data

/-- `BTreeMap::get`. -/
def Post.get : Post → String → Option Value
  | [], _ => none
  | (k, v) :: rest, key => if k = key then some v else Post.get rest key

/-- `BTreeMap::insert`: replaces the value of an existing key, otherwise
inserts at the key's ordered position. -/
def Post.insert (key : String) (val : Value) : Post → Post
  | [] => [(key, val)]
  | (k, v) :: rest =>
    if key = k then (key, val) :: rest
    else if strLtb key k then (key, val) :: (k, v) :: rest
    else (k, v) :: Post.insert key val rest

/-- `BTreeMap::contains_key`. -/
def Post.containsKey (p : Post) (key : String) : Bool :=
  (Post.get p key).isSome

/-- The bloggo `Error` type (`src/error.rs`), with the wrapped foreign errors
reduced to their display text. -/
inductive Error : Type
  | ioError (msg : String)
  | templateError (msg : String)
  | renderError (msg : String)
  /-- unexpected end of file while parsing front matter; carries the source
  identifier (the path's OS string) -/
  | unexpectedEOF (src : String)
  | other (msg : String)
deriving DecidableEq

mutual

/-- `TryFrom<serde_yaml::Value> for Value` (`src/value.rs`, equally
`src/lib.rs`): Null/Bool/String map across; a number becomes `Float` when
`as_f64` succeeds, else `Integer` when `as_i64` succeeds, else an error;
sequences recurse element-wise; mappings recurse value-wise into a `BTreeMap`
dropping non-string keys; `Tagged` unwraps. -/
def Value.tryFromYaml : YValue → Except Error Value
  | .null => .ok .null
  | .bool b => .ok (.boolean b)
  | .number n =>
    match n.as_f64 with
    | some f => .ok (.number (.float f))
    | none =>
      match n.as_i64 with
      | some i => .ok (.number (.integer i))
      | none =>
        .error (.other ("Unknown number format while parsing YAML: " ++ n.display))
  | .string s => .ok (.string s)
  | .sequence xs =>
    match tryFromYamlList xs with
    | .ok vs => .ok (.array vs)
    | .error e => .error e
  | .mapping m =>
    match tryFromYamlMap m [] with
    | .ok entries => .ok (.map entries)
    | .error e => .error e
  | .tagged _ v => Value.tryFromYaml v

/-- The element-wise recursion of the `Sequence` case. -/
def tryFromYamlList : List YValue → Except Error (List Value)
  | [] => .ok []
  | x :: xs =>
    match Value.tryFromYaml x with
    | .ok v =>
      match tryFromYamlList xs with
      | .ok vs => .ok (v :: vs)
      | .error e => .error e
    | .error e => .error e

/-- The entry-wise recursion of the `Mapping` case: `BTreeMap::insert` for
each entry whose key is a string, in document order (so a later duplicate key
overwrites an earlier one); entries with non-string keys are skipped without
converting their values. -/
def tryFromYamlMap : List (YValue × YValue) → Post → Except Error Post
  | [], acc => .ok acc
  | (k, v) :: rest, acc =>
    match k.as_str with
    | some key =>
      match Value.tryFromYaml v with
      | .ok value => tryFromYamlMap rest (Post.insert key value acc)
      | .error e => .error e
    | none => tryFromYamlMap rest acc

end

/-- `str::starts_with`: substring check against the beginning of `s`. -/
def strStartsWith (s pre : String) : Bool :=
  pre.data.isPrefixOf s.data

/-- `BufRead::read_to_string` on the remainder of a stream modelled as its
list of lines: their concatenation. -/
def concatLines (ls : List String) : String :=
  ls.foldr (fun a b => a ++ b) ""

/-- `parse_yaml_data` (`src/lib.rs`): decode the YAML text through the
external decoder (`serde_yaml::from_str`, passed in as `decode`), wrapping a
decode failure in the catch-all error, then convert into a `Value`. -/
def parse_yaml_data (decode : String → Except String YValue) (yaml : String) :
    Except Error Value :=
  match decode yaml with
  | .error e => .error (.other ("YAML deserialization failure: " ++ e))
  | .ok yv => Value.tryFromYaml yv

/-- `read_until` (`src/lib.rs`): accumulate lines from the stream into a
string until a line starting with `pre` is found; that delimiter line is
consumed but not accumulated, and the remaining stream is returned alongside.
Reaching end of stream first is an error (the catch-all kind, with a fixed
message and no source identifier). -/
def read_until : List String → String → Except Error (String × List String)
  | [], _ => .error (.other "Unexpected end of file.")
  | l :: ls, pre =>
    if strStartsWith l pre then .ok ("", ls)
    else
      match read_until ls pre with
      | .ok (s, rest) => .ok (l ++ s, rest)
      | .error e => .error e

/-! ## Paths

A `std::path::Path` is modelled as its list of components. -/

/-- A filesystem path, as a list of components. -/
abbrev RPath := List String

/-- `Path::strip_prefix`, componentwise; failure is converted by
`From<StripPrefixError> for Error` into the catch-all error with the
`StripPrefixError` display text. -/
def strip_path_root (base : RPath) (p : RPath) : Except Error RPath :=
  if base.isPrefixOf p then .ok (p.drop base.length) else .error (.other "prefix not found")

/-- Split a file name at the last dot: `some (stem, ext)` when a dot exists,
where the returned stem is everything before that dot. The caller rejects an
empty stem (a leading dot alone does not begin an extension, matching
`Path::extension`). -/
def extSplit : List Char → Option (List Char × List Char)
  | [] => none
  | c :: cs =>
    match extSplit cs with
    | some (st, ex) => some (c :: st, ex)
    | none => if c = '.' then some ([], cs) else none

/-- `Path::extension` of a file name: the part after the last dot, provided
the stem before it is nonempty. -/
def extName (name : String) : Option String :=
  match extSplit name.data with
  | some ([], _) => none
  | some (st, ex) => if st = [] then none else some (String.mk ex)
  | none => none

/-- `Path::file_stem` of a file name: everything before the last dot when
that dot begins an extension, else the whole name. -/
def fileStem (name : String) : String :=
  match extSplit name.data with
  | some ([], _) => name
  | some (st, _) => if st = [] then name else String.mk st
  | none => name

/-- `Path::set_extension` applied to a file name: stem, dot, new extension. -/
def setExtName (name e : String) : String :=
  fileStem name ++ "." ++ e

/-- `PathBuf::set_extension` on a path: rewrites the last component's
extension (a no-op on the empty path, as in Rust). -/
def set_path_extension : RPath → String → RPath
  | [], _ => []
  | [n], e => [setExtName n e]
  | c :: rest, e => c :: set_path_extension rest e

/-- `Path::to_string_lossy` / `OsStr` display: components joined by `/`. -/
def pathDisplay (p : RPath) : String :=
  String.intercalate "/" p

/-- `Path::extension` of a whole path: the extension of its last component. -/
def pathExt (p : RPath) : Option String :=
  match p.getLast? with
  | some n => extName n
  | none => none

/-! ## Dates

Models of the `chrono` parsing and formatting the pipeline uses:
`NaiveDate::parse_from_str(_, "%Y-%m-%d")`,
`DateTime::parse_from_str(_, "%+")` and `format("%+")`. -/

/-- The numeric value of a decimal digit character. -/
def digitVal (c : Char) : Option Nat :=
  if c.isDigit then some (c.toNat - 48) else none

/-- Parse exactly two decimal digits. -/
def parse2 : List Char → Option (Nat × List Char)
  | a :: b :: rest =>
    match digitVal a, digitVal b with
    | some x, some y => some (x * 10 + y, rest)
    | _, _ => none
  | _ => none

/-- Parse exactly four decimal digits. -/
def parse4 : List Char → Option (Nat × List Char)
  | a :: b :: c :: d :: rest =>
    match digitVal a, digitVal b, digitVal c, digitVal d with
    | some w, some x, some y, some z => some (((w * 10 + x) * 10 + y) * 10 + z, rest)
    | _, _, _, _ => none
  | _ => none

/-- Consume one expected character. -/
def expectChar (c : Char) : List Char → Option (List Char)
  | x :: rest => if x = c then some rest else none
  | [] => none

/-- Proleptic-Gregorian leap year. -/
def isLeap (y : Nat) : Bool :=
  (y % 4 = 0 && y % 100 ≠ 0) || y % 400 = 0

/-- Number of days in a month. -/
def daysInMonth (y m : Nat) : Nat :=
  if m = 2 then (if isLeap y then 29 else 28)
  else if m = 4 ∨ m = 6 ∨ m = 9 ∨ m = 11 then 30
  else 31

/-- Calendar validity of a year-month-day triple (as `chrono` checks it). -/
def validYMD (y m d : Nat) : Bool :=
  decide (1 ≤ m) && decide (m ≤ 12) && decide (1 ≤ d) && decide (d ≤ daysInMonth y m)

/-- Days since 1970-01-01 of a proleptic-Gregorian date (the civil-days
computation underlying `chrono`'s date arithmetic). -/
def days_from_civil (y mo d : Nat) : Int :=
  let yi : Int := (y : Int) - (if mo ≤ 2 then 1 else 0)
  let era : Int := Int.fdiv yi 400
  let yoe : Nat := (yi - era * 400).toNat
  let mp : Nat := (mo + 9) % 12
  let doy : Nat := (153 * mp + 2) / 5 + (d - 1)
  let doe : Nat := yoe * 365 + yoe / 4 - yoe / 100 + doy
  era * 146097 + (doe : Int) - 719468

/-- `NaiveDate::parse_from_str(s, "%Y-%m-%d")`, on the shapes reachable here:
a four-digit year, two-digit month and two-digit day separated by hyphens,
consuming the whole string, and calendar-valid. -/
def parse_ymd (s : String) : Option (Nat × Nat × Nat) := do
  let cs := s.data
  let (y, cs) ← parse4 cs
  let cs ← expectChar '-' cs
  let (mo, cs) ← parse2 cs
  let cs ← expectChar '-' cs
  let (d, cs) ← parse2 cs
  if cs = [] ∧ validYMD y mo d = true then some (y, mo, d) else none

/-- The date-time separator accepted by `chrono`'s RFC 3339 parsing. -/
def parseSep : List Char → Option (List Char)
  | 'T' :: rest => some rest
  | 't' :: rest => some rest
  | ' ' :: rest => some rest
  | _ => none

/-- Fractional-second digits: the first nine digits become nanoseconds,
further digits are consumed but ignored. -/
def parseFracDigits : List Char → Nat → Nat → Nat × List Char
  | c :: cs, acc, k =>
    match digitVal c with
    | some d => if k < 9 then parseFracDigits cs (acc * 10 + d) (k + 1) else parseFracDigits cs acc k
    | none => (acc * 10 ^ (9 - k), c :: cs)
  | [], acc, k => (acc * 10 ^ (9 - k), [])

/-- Optional fractional seconds: a dot must be followed by at least one
digit; absence contributes zero nanoseconds. -/
def parseFrac : List Char → Option (Nat × List Char)
  | '.' :: rest =>
    match rest with
    | c :: _ => if (digitVal c).isSome then some (parseFracDigits rest 0 0) else none
    | [] => none
  | cs => some (0, cs)

/-- An RFC 3339 numeric offset `HH:MM`, in seconds, range-checked. -/
def parseHHMM (cs : List Char) : Option (Nat × List Char) := do
  let (h, cs) ← parse2 cs
  let cs ← expectChar ':' cs
  let (m, cs) ← parse2 cs
  if h ≤ 23 ∧ m ≤ 59 then some (h * 3600 + m * 60, cs) else none

/-- The RFC 3339 timezone offset: `Z`/`z` or a signed `HH:MM`. -/
def parseOffset : List Char → Option (Int × List Char)
  | 'Z' :: rest => some (0, rest)
  | 'z' :: rest => some (0, rest)
  | '+' :: rest => (parseHHMM rest).map (fun (n, r) => ((n : Int), r))
  | '-' :: rest => (parseHHMM rest).map (fun (n, r) => (-(n : Int), r))
  | _ => none

/-- The `YYYY-MM-DD` head of an RFC 3339 timestamp. -/
def parseDatePart (cs : List Char) : Option ((Nat × Nat × Nat) × List Char) :=
  match parse4 cs with
  | none => none
  | some (y, cs) =>
    match expectChar '-' cs with
    | none => none
    | some cs =>
      match parse2 cs with
      | none => none
      | some (mo, cs) =>
        match expectChar '-' cs with
        | none => none
        | some cs =>
          match parse2 cs with
          | none => none
          | some (d, cs) => some ((y, mo, d), cs)

/-- The `HH:MM:SS` part of an RFC 3339 timestamp. -/
def parseTimePart (cs : List Char) : Option ((Nat × Nat × Nat) × List Char) :=
  match parse2 cs with
  | none => none
  | some (h, cs) =>
    match expectChar ':' cs with
    | none => none
    | some cs =>
      match parse2 cs with
      | none => none
      | some (mi, cs) =>
        match expectChar ':' cs with
        | none => none
        | some cs =>
          match parse2 cs with
          | none => none
          | some (se, cs) => some ((h, mi, se), cs)

/-- `DateTime::parse_from_str(s, "%+")` (ISO 8601 / RFC 3339), reduced to the
resulting instant: nanoseconds since the Unix epoch (the key by which
`DateTime` values are ordered). A leap second `:60` is carried, as in
`chrono`, as second 59 plus an extra 10^9 nanoseconds. -/
def parse_datetime_iso (s : String) : Option Int :=
  match parseDatePart s.data with
  | none => none
  | some ((y, mo, d), cs) =>
    match parseSep cs with
    | none => none
    | some cs =>
      match parseTimePart cs with
      | none => none
      | some ((h, mi, se), cs) =>
        match parseFrac cs with
        | none => none
        | some (nanos, cs) =>
          match parseOffset cs with
          | none => none
          | some (off, cs) =>
            if cs = [] ∧ validYMD y mo d = true ∧ h ≤ 23 ∧ mi ≤ 59 ∧ se ≤ 60 then
              let secPart : Nat := if se = 60 then 59 else se
              let leapNanos : Nat := if se = 60 then 1000000000 else 0
              let secs : Int :=
                days_from_civil y mo d * 86400 + ((h * 3600 + mi * 60 + secPart : Nat) : Int) - off
              some (secs * 1000000000 + (nanos : Int) + (leapNanos : Int))
            else none

/-- `extract_date_from_str` (`src/lib.rs`): take the first ten characters and
parse them as `%Y-%m-%d`; the subsequent `and_hms_opt(0, 0, 0)` and
`DateTime::from_utc` steps are total and fix the time to midnight UTC, which
`format_midnight_iso` renders. -/
def extract_date_from_str (s : String) : Option (Nat × Nat × Nat) :=
  parse_ymd (String.mk (s.data.take 10))

/-- Zero-pad to two digits. -/
def pad2 (n : Nat) : String :=
  if n < 10 then "0" ++ toString n else toString n

/-- Zero-pad to four digits. -/
def pad4 (n : Nat) : String :=
  if n < 10 then "000" ++ toString n
  else if n < 100 then "00" ++ toString n
  else if n < 1000 then "0" ++ toString n
  else toString n

/-- `format!("{}", dt.format("%+"))` for a `DateTime<Utc>` at midnight: the
ISO 8601 timestamp with zero time-of-day and a `+00:00` offset (the
fractional part prints as nothing when the nanoseconds are zero). -/
def format_midnight_iso (y mo d : Nat) : String :=
  pad4 y ++ "-" ++ pad2 mo ++ "-" ++ pad2 d ++ "T00:00:00+00:00"

/-! ## Post parsing and normalization (`Bloggo::parse_post`) -/

/-- The configuration a `Bloggo` instance carries (directories as path
components, plus the base URL). -/
structure Bloggo where
  src_dir : RPath
  dest_dir : RPath
  base_url : String

/-- The external collaborators `parse_post` drives: the YAML decoder
(`serde_yaml::from_str`, returning its error display text on failure) and the
Markdown-to-HTML converter (`pulldown_cmark`, total). -/
structure Externals where
  yamlDecode : String → Except String YValue
  mdToHtml : String → String

/-- The tail of `Bloggo::parse_post` after the front-matter map `fmMap` and
the raw body are in hand: render the body (through Markdown iff the source
path's extension is `md`) and insert it under `text`; strip the source root
and the `posts` segment from the source path, rewrite the extension to
`.html`, and insert the result under `path`; insert the base URL, a slash and
that path under `url`; and if no `date` key is present, derive one from the
first ten characters of the path, inserting it only on success. -/
def normalize_post (exts : Externals) (cfg : Bloggo) (p : RPath) (fmMap : Post)
    (body : String) : Except Error Post :=
  let text := if pathExt p = some "md" then exts.mdToHtml body else body
  let post := Post.insert "text" (Value.string text) fmMap
  match strip_path_root cfg.src_dir p with
  | .error e => .error e
  | .ok r1 =>
    match strip_path_root ["posts"] r1 with
    | .error e => .error e
    | .ok r2 =>
      let filename := pathDisplay (set_path_extension r2 "html")
      let post := Post.insert "path" (Value.string filename) post
      let post := Post.insert "url" (Value.string (cfg.base_url ++ "/" ++ filename)) post
      let post :=
        if Post.containsKey post "date" then post
        else
          match extract_date_from_str filename with
          | some (y, mo, d) =>
            Post.insert "date" (Value.string (format_midnight_iso y mo d)) post
          | none => post
      .ok post

/-- The middle of `Bloggo::parse_post`: decode the accumulated front-matter
text, require the decoded value to be a mapping, then continue with the rest
of the stream (`read_to_string`, the concatenation of the remaining lines) as
the raw body. -/
def finish_post (exts : Externals) (cfg : Bloggo) (p : RPath) (fm : String)
    (bodyLines : List String) : Except Error Post :=
  match parse_yaml_data exts.yamlDecode fm with
  | .error e => .error e
  | .ok v =>
    match v with
    | .map m => normalize_post exts cfg p m (concatLines bodyLines)
    | _ => .error (.other "Parsed YAML is not a mapping.")

/-- `Bloggo::parse_post`: a first `read_line` returning zero bytes is an
unexpected-end-of-file error carrying the path's OS string; a first line
starting with `---` opens front matter, which runs until the next line
starting with `---`; any other first line is the missing-front-matter
error. -/
def parse_post (exts : Externals) (cfg : Bloggo) (p : RPath) (content : List String) :
    Except Error Post :=
  match content with
  | [] => .error (.unexpectedEOF (pathDisplay p))
  | line :: rest =>
    if strStartsWith line "---" then
      match read_until rest "---" with
      | .error e => .error e
      | .ok (fm, rest2) => finish_post exts cfg p fm rest2
    else .error (.other "Missing front matter.")

/-! ## Collection assembly (`Bloggo::parse_posts`, sorting stage) -/

/-- The Unix-epoch fallback key: `parse_posts` obtains it by parsing
`"1970-01-01T00:00:00Z"` with `%+`. -/
def epochKey : Int :=
  (parse_datetime_iso "1970-01-01T00:00:00Z").getD 0

/-- The cached sort key of `parse_posts`: the parsed `date` field when it is
a string that parses with `%+`, else the Unix epoch. -/
def sortKey (p : Post) : Int :=
  (((Post.get p "date").bind Value.as_string).bind parse_datetime_iso).getD epochKey

/-- Stable insertion of a post into an ascending run: the new post goes after
every post with a smaller-or-equal key, preserving discovery order on
ties. -/
def insert_by_key (x : Post) : List Post → List Post
  | [] => [x]
  | y :: ys => if sortKey y < sortKey x then y :: insert_by_key x ys else x :: y :: ys

/-- `Vec::sort_by_cached_key` is a stable ascending sort by the cached key;
stable insertion sort is the canonical such sort (the output of a stable sort
is uniquely determined). -/
def stable_sort_by_key : List Post → List Post
  | [] => []
  | x :: xs => insert_by_key x (stable_sort_by_key xs)

/-- The sorting stage of `Bloggo::parse_posts`: stable ascending sort by the
cached date key, then `Vec::reverse`, so the most recent post comes first. -/
def sort_posts (ps : List Post) : List Post :=
  (stable_sort_by_key ps).reverse

/-! ## Atom feed emitter (`src/atom.rs`) -/

/-- The first `writeln!` payload of `generate_atom_feed`: the XML declaration
and the opening `feed` tag (one raw string containing a newline). -/
def atomIntro : String :=
  "<?xml version=\"1.0\" encoding=\"utf-8\"?>\n<feed xmlns=\"http://www.w3.org/2005/Atom\">"

/-- The body of `generate_atom_feed`'s `for post in posts` loop: the
`writeln!` payloads it appends to the output written so far — the entry
opener, then the `<title>`, `<published>` and self-closing `<link href>`
lines exactly when the post's `title`, `date` and `url` fields hold strings,
then the entry closer. -/
def atom_entry_writes (out : List String) (post : Post) : List String :=
  let out := out ++ ["  <entry>"]
  let out :=
    match (Post.get post "title").bind Value.as_string with
    | some t => out ++ ["    <title>" ++ t ++ "</title>"]
    | none => out
  let out :=
    match (Post.get post "date").bind Value.as_string with
    | some dt => out ++ ["    <published>" ++ dt ++ "</published>"]
    | none => out
  let out :=
    match (Post.get post "url").bind Value.as_string with
    | some l => out ++ ["    <link href=\"" ++ l ++ "\" />"]
    | none => out
  out ++ ["  </entry>"]

/-- `generate_atom_feed` (`src/atom.rs`), with the writer modelled as the
list of `writeln!` payloads in order: the intro, the loop over the posts,
and the closing `</feed>`. -/
def generate_atom_feed (posts : List Post) : List String :=
  posts.foldl atom_entry_writes [atomIntro] ++ ["</feed>"]

/-! ## Render orchestrator outputs

The provided `src/lib.rs` is the pre-tag-index revision of the crate: its
`Bloggo::build` writes only `index.html`, `atom.xml` and the per-post pages,
and it does not even typecheck against the provided `src/atom.rs`, whose
`generate_atom_feed(posts: &[&Post], ...)` takes a slice of references (the
shape the tag buckets of the current revision produce). The current
revision's `lib.rs` — the code that decides the per-tag outputs — is not
among the provided sources, so the orchestrator's output set is modelled
from the spec below. -/

/-- Modelled from the spec (the tag-extraction rule of the Collection
Assembler, whose current-revision implementation is not among the provided
sources): a `String` value of `tags` is a single tag name, an `Array` value
contributes its string elements, anything else contributes nothing. -/
def tags_of (p : Post) : List String :=
  match Post.get p "tags" with
  | some (Value.string s) => [s]
  | some (Value.array xs) => xs.filterMap Value.as_string
  | _ => []

/-- Modelled from the spec: the tag names of the Tag Index, in first-seen
order, one bucket per distinct tag name. -/
def tagIndexKeys (posts : List Post) : List String :=
  posts.foldl
    (fun acc p =>
      (tags_of p).foldl (fun acc t => if acc.contains t then acc else acc ++ [t]) acc)
    []

/-- Modelled from the spec: the destination-relative files the Render
Orchestrator of the current revision writes in one build (`Bloggo::build` of
the revision whose `lib.rs` is not among the provided sources): the global
`index.html`, a per-tag `<tag>/index.html` and `<tag>/atom.xml` for every
tag in the Tag Index, one page per post at its `path`, and the site-wide
`atom.xml`. -/
def build_outputs (posts : List Post) : List String :=
  ["index.html"]
  ++ (tagIndexKeys posts).map (fun t => t ++ "/index.html")
  ++ (tagIndexKeys posts).map (fun t => t ++ "/atom.xml")
  ++ posts.filterMap (fun p => (Post.get p "path").bind Value.as_string)
  ++ ["atom.xml"]

/-! ## Concrete fixtures used by witnesses and counterexamples -/

/-- Fixed externals for concrete runs: the YAML decoder returns an empty
mapping and Markdown conversion is the identity. -/
def extsFix : Externals :=
  { yamlDecode := fun _ => Except.ok (YValue.mapping []), mdToHtml := id }

/-- A fixed configuration. -/
def cfgFix : Bloggo :=
  { src_dir := ["source"], dest_dir := ["build"], base_url := "b" }

/-- A fixed source path under `source/posts`. -/
def pathFix : RPath := ["source", "posts", "a.md"]

/-- The post `parse_post` produces from `pathFix` with empty front matter and
the body `hello`. -/
def postFix : Post :=
  [("path", Value.string "a.html"), ("text", Value.string "hello"),
   ("url", Value.string "b/a.html")]

/-- A post dated January 1, 2024 (midnight UTC). -/
def postJan : Post :=
  [("date", Value.string "2024-01-01T00:00:00+00:00"), ("title", Value.string "January")]

/-- A post dated June 1, 2024 (midnight UTC). -/
def postJun : Post :=
  [("date", Value.string "2024-06-01T00:00:00+00:00"), ("title", Value.string "June")]

/-- A dateless post. -/
def postA : Post := [("title", Value.string "a")]

/-- Another dateless post. -/
def postB : Post := [("title", Value.string "b")]

/-- A post whose `date` is present but not parseable with `%+`. -/
def postBadDate : Post := [("date", Value.string "not-a-date")]

/-- A post carrying the single tag `a`. -/
def postTagged : Post := [("tags", Value.string "a")]

/-! ## Helper lemmas on `Post` maps -/

theorem Post.get_insert_self (p : Post) (k : String) (v : Value) :
    Post.get (Post.insert k v p) k = some v := by
  induction p with
  | nil => simp [Post.insert, Post.get]
  | cons kv rest ih =>
    obtain ⟨k1, v1⟩ := kv
    by_cases h : k = k1
    · simp [Post.insert, h, Post.get]
    · by_cases h2 : strLtb k k1
      · simp [Post.insert, h, h2, Post.get]
      · simp [Post.insert, h, h2, Post.get, Ne.symm h, ih]

theorem Post.get_insert_ne (p : Post) (k key : String) (v : Value) (h : key ≠ k) :
    Post.get (Post.insert k v p) key = Post.get p key := by
  have hk : ¬(k = key) := fun hh => h hh.symm
  induction p with
  | nil => simp [Post.insert, Post.get, hk]
  | cons kv rest ih =>
    obtain ⟨k1, v1⟩ := kv
    by_cases h1 : k = k1
    · subst h1
      simp [Post.insert, Post.get, hk]
    · by_cases h2 : strLtb k k1
      · simp [Post.insert, h1, h2, Post.get, hk]
      · simp [Post.insert, h1, h2, Post.get, ih]

/-! ## Helper lemmas on the sorting stage -/

theorem mem_insert_by_key {a x : Post} {l : List Post} :
    a ∈ insert_by_key x l ↔ a = x ∨ a ∈ l := by
  induction l with
  | nil => simp [insert_by_key]
  | cons y ys ih =>
    unfold insert_by_key
    split
    · simp only [List.mem_cons, ih]
      tauto
    · simp only [List.mem_cons]

theorem pairwise_insert_by_key (x : Post) (l : List Post)
    (h : List.Pairwise (fun a b => sortKey a ≤ sortKey b) l) :
    List.Pairwise (fun a b => sortKey a ≤ sortKey b) (insert_by_key x l) := by
  induction l with
  | nil => simp [insert_by_key]
  | cons y ys ih =>
    rcases List.pairwise_cons.mp h with ⟨hy, hys⟩
    unfold insert_by_key
    split
    · rename_i hlt
      refine List.pairwise_cons.mpr ⟨?_, ih hys⟩
      intro z hz
      rcases mem_insert_by_key.mp hz with rfl | hzys
      · exact le_of_lt hlt
      · exact hy z hzys
    · rename_i hnlt
      refine List.pairwise_cons.mpr ⟨?_, h⟩
      intro z hz
      rcases List.mem_cons.mp hz with rfl | hzys
      · exact le_of_not_lt hnlt
      · exact le_trans (le_of_not_lt hnlt) (hy z hzys)

theorem pairwise_stable_sort (l : List Post) :
    List.Pairwise (fun a b => sortKey a ≤ sortKey b) (stable_sort_by_key l) := by
  induction l with
  | nil => simp [stable_sort_by_key]
  | cons x xs ih => exact pairwise_insert_by_key x _ ih

theorem insert_by_key_append (x : Post) (l : List Post)
    (h : ∀ z ∈ l, sortKey z < sortKey x) :
    insert_by_key x l = l ++ [x] := by
  induction l with
  | nil => rfl
  | cons y ys ih =>
    unfold insert_by_key
    rw [if_pos (h y (List.mem_cons_self y ys))]
    rw [ih (fun z hz => h z (List.mem_cons_of_mem y hz))]
    rfl

theorem stable_sort_of_strict_desc (l : List Post)
    (h : List.Pairwise (fun a b => sortKey b < sortKey a) l) :
    stable_sort_by_key l = l.reverse := by
  induction l with
  | nil => rfl
  | cons x xs ih =>
    rcases List.pairwise_cons.mp h with ⟨hx, hxs⟩
    unfold stable_sort_by_key
    rw [ih hxs]
    rw [insert_by_key_append x xs.reverse (fun z hz => hx z (List.mem_reverse.mp hz))]
    simp

/-! ## Helper lemmas on `read_until` -/

theorem read_until_no_delim (ls : List String) (q : String)
    (h : ∀ l ∈ ls, strStartsWith l q = false) :
    read_until ls q = .error (.other "Unexpected end of file.") := by
  induction ls with
  | nil => rfl
  | cons l rest ih =>
    unfold read_until
    rw [h l (List.mem_cons_self l rest)]
    rw [ih (fun x hx => h x (List.mem_cons_of_mem l hx))]
    simp

theorem read_until_split (pre suf : List String) (d q : String)
    (hpre : ∀ l ∈ pre, strStartsWith l q = false)
    (hd : strStartsWith d q = true) :
    read_until (pre ++ d :: suf) q = .ok (concatLines pre, suf) := by
  induction pre with
  | nil =>
    rw [List.nil_append]
    unfold read_until
    rw [hd]
    rfl
  | cons l rest ih =>
    rw [List.cons_append]
    unfold read_until
    rw [hpre l (List.mem_cons_self l rest)]
    rw [ih (fun x hx => hpre x (List.mem_cons_of_mem l hx))]
    simp [concatLines]

/-! ## Helper lemmas on the Atom emitter -/

/-- The entry block of one post as the claim describes it: the opener, then
`<title>` exactly when the post has a String `title`, `<published>` exactly
when it has a String `date`, a self-closing `<link href>` exactly when it has
a String `url`, then the closer. -/
def atom_entry_spec (post : Post) : List String :=
  ["  <entry>"]
  ++ (match (Post.get post "title").bind Value.as_string with
      | some t => ["    <title>" ++ t ++ "</title>"]
      | none => [])
  ++ (match (Post.get post "date").bind Value.as_string with
      | some dt => ["    <published>" ++ dt ++ "</published>"]
      | none => [])
  ++ (match (Post.get post "url").bind Value.as_string with
      | some l => ["    <link href=\"" ++ l ++ "\" />"]
      | none => [])
  ++ ["  </entry>"]

theorem atom_entry_writes_eq (out : List String) (post : Post) :
    atom_entry_writes out post = out ++ atom_entry_spec post := by
  cases ht : (Post.get post "title").bind Value.as_string <;>
    cases hd : (Post.get post "date").bind Value.as_string <;>
      cases hu : (Post.get post "url").bind Value.as_string <;>
        simp [atom_entry_writes, atom_entry_spec, ht, hd, hu]

theorem foldl_atom_entries (posts : List Post) (init : List String) :
    posts.foldl atom_entry_writes init = init ++ (posts.map atom_entry_spec).flatten := by
  induction posts generalizing init with
  | nil => simp
  | cons p ps ih =>
    rw [List.foldl_cons, atom_entry_writes_eq, ih]
    simp

/-- Lookup through the conditional date-derivation step of `normalize_post`,
for any key other than `date`. -/
theorem get_after_maybe_date (X : Post) (fname : String) (k : String) (hk : k ≠ "date") :
    Post.get
      (if Post.containsKey X "date" then X
       else
         match extract_date_from_str fname with
         | some (y, mo, d) => Post.insert "date" (Value.string (format_midnight_iso y mo d)) X
         | none => X) k
      = Post.get X k := by
  by_cases hc : Post.containsKey X "date"
  · rw [if_pos hc]
  · rw [if_neg hc]
    cases hx : extract_date_from_str fname with
    | none => rfl
    | some ymd =>
      obtain ⟨y, md⟩ := ymd
      obtain ⟨mo, d⟩ := md
      exact Post.get_insert_ne X "date" k _ hk

/-! ## Claims -/

/-- C1: for every build whose Tag Index contains a tag name `t` (which is the
case exactly when the collection has at least one tagged post), the modelled
Render Orchestrator writes the per-tag index page `t/index.html` and the
per-tag Atom feed `t/atom.xml`, in addition to the global `index.html` and
the site-wide `atom.xml`. -/
theorem c1_per_tag_outputs (posts : List Post) (t : String)
    (ht : t ∈ tagIndexKeys posts) :
    (t ++ "/index.html") ∈ build_outputs posts
    ∧ (t ++ "/atom.xml") ∈ build_outputs posts
    ∧ "index.html" ∈ build_outputs posts
    ∧ "atom.xml" ∈ build_outputs posts := by
  unfold build_outputs
  refine ⟨?_, ?_, ?_, ?_⟩
  · have hm : (t ++ "/index.html") ∈ (tagIndexKeys posts).map (fun t => t ++ "/index.html") :=
      List.mem_map_of_mem _ ht
    simp only [List.mem_append]
    tauto
  · have hm : (t ++ "/atom.xml") ∈ (tagIndexKeys posts).map (fun t => t ++ "/atom.xml") :=
      List.mem_map_of_mem _ ht
    simp only [List.mem_append]
    tauto
  · simp
  · simp

/-- Witness for `c1_per_tag_outputs`: a one-post collection tagged `a`. -/
theorem c1_per_tag_outputs_witness :
    "a" ∈ tagIndexKeys [postTagged]
    ∧ (("a" ++ "/index.html") ∈ build_outputs [postTagged]
       ∧ ("a" ++ "/atom.xml") ∈ build_outputs [postTagged]
       ∧ "index.html" ∈ build_outputs [postTagged]
       ∧ "atom.xml" ∈ build_outputs [postTagged]) :=
  ⟨by decide, c1_per_tag_outputs [postTagged] "a" (by decide)⟩

/-- The integer payload of a conversion result when the conversion produced
the integer subkind, used to state that it did not. -/
def integerSubkind : Except Error Value → Option Int
  | .ok (.number (.integer i)) => some i
  | _ => none

/-- C2 counterexample: the YAML literal `3` is representable both as `i64`
and as `f64`, yet conversion produces the float subkind (`as_f64` is tried
first and always succeeds), not `Number/Integer` as the claim states. -/
theorem c2_counterexample :
    Value.tryFromYaml (YValue.number (YNumber.posInt 3))
      = Except.ok (Value.number (Number.float (F64.ofU64 3)))
    ∧ integerSubkind (Value.tryFromYaml (YValue.number (YNumber.posInt 3))) = none :=
  ⟨rfl, rfl⟩

/-- C2 (amended): the float subkind is the one preferred — every YAML number
(integer literals included) converts to `Number/Float`, through the value
`as_f64` returns; the integer branch of the conversion is unreachable. -/
theorem c2_every_yaml_number_becomes_float (n : YNumber) :
    ∃ f : F64, n.as_f64 = some f
      ∧ Value.tryFromYaml (YValue.number n) = Except.ok (Value.number (Number.float f)) := by
  cases n <;> exact ⟨_, rfl, rfl⟩

/-- C3 (amended): a document whose first line starts with `---` but none of
whose later lines starts with `---` fails with the catch-all error carrying
the fixed message `Unexpected end of file.` — not with the source-carrying
unexpected-EOF variant, so the source identifier is not part of the error. -/
theorem c3_unclosed_front_matter (exts : Externals) (cfg : Bloggo) (p : RPath)
    (l0 : String) (ls : List String)
    (h0 : strStartsWith l0 "---" = true)
    (hls : ∀ l ∈ ls, strStartsWith l "---" = false) :
    parse_post exts cfg p (l0 :: ls) = .error (.other "Unexpected end of file.") := by
  simp only [parse_post]
  rw [h0, read_until_no_delim ls "---" hls]
  simp

/-- Witness for `c3_unclosed_front_matter`. -/
theorem c3_unclosed_front_matter_witness :
    parse_post extsFix cfgFix pathFix ["--- x\n", "title: a\n"]
      = .error (.other "Unexpected end of file.") :=
  c3_unclosed_front_matter extsFix cfgFix pathFix "--- x\n" ["title: a\n"]
    (by decide) (by decide)

/-- The source identifier carried by the result, when the result is the
source-carrying unexpected-EOF error. -/
def eofSource : Except Error Post → Option String
  | .error (.unexpectedEOF s) => some s
  | _ => none

/-- C3 counterexample: on a concrete document whose front matter is never
closed, parsing fails with the plain-message catch-all error; the result is
not the unexpected-EOF variant and carries no source identifier, contrary to
the claim. -/
theorem c3_counterexample :
    parse_post extsFix cfgFix pathFix ["---\n", "title: a\n"]
      = .error (.other "Unexpected end of file.")
    ∧ eofSource (parse_post extsFix cfgFix pathFix ["---\n", "title: a\n"]) = none :=
  ⟨rfl, rfl⟩

/-- C4: the sorted collection is ordered by the derived date key descending;
a post with no `date`, or with a `date` that does not parse with `%+`, gets
the Unix-epoch key (which is 0); and of two posts dated 2024-01-01 and
2024-06-01 (midnight UTC), the June post comes first whatever the discovery
order. -/
theorem c4_collection_sorted_descending (posts : List Post) (p q : Post) (s : String)
    (hp : Post.get p "date" = none)
    (hq : (Post.get q "date").bind Value.as_string = some s)
    (hs : parse_datetime_iso s = none) :
    List.Pairwise (fun a b => sortKey b ≤ sortKey a) (sort_posts posts)
    ∧ sortKey p = epochKey
    ∧ sortKey q = epochKey
    ∧ epochKey = 0
    ∧ sort_posts [postJan, postJun] = [postJun, postJan]
    ∧ sort_posts [postJun, postJan] = [postJun, postJan] := by
  refine ⟨?_, ?_, ?_, rfl, rfl, rfl⟩
  · unfold sort_posts
    rw [List.pairwise_reverse]
    exact pairwise_stable_sort posts
  · unfold sortKey
    rw [hp]
    rfl
  · unfold sortKey
    rw [hq]
    simp [hs]

/-- Witness for `c4_collection_sorted_descending`. -/
theorem c4_collection_sorted_descending_witness :
    List.Pairwise (fun a b => sortKey b ≤ sortKey a) (sort_posts [])
    ∧ sortKey postA = epochKey
    ∧ sortKey postBadDate = epochKey
    ∧ epochKey = 0
    ∧ sort_posts [postJan, postJun] = [postJun, postJan]
    ∧ sort_posts [postJun, postJan] = [postJun, postJan] :=
  c4_collection_sorted_descending [] postA postBadDate "not-a-date" rfl rfl rfl

/-- C5 counterexample: two dateless posts share the epoch key; sorting the
two-post collection once yields an order that sorting again reverses, so the
sorting operation is not idempotent on collections with equal or missing
dates (each application reverses a tied block). -/
theorem c5_counterexample :
    sort_posts (sort_posts [postA, postB]) ≠ sort_posts [postA, postB] :=
  fun h =>
    absurd
      (congrArg (List.map (fun p => (Post.get p "title").bind Value.as_string)) h)
      (by decide)

/-- C5 (amended): the sorting operation is idempotent on collections whose
derived date keys are pairwise distinct — an already-sorted collection is
strictly descending in the key, and sorting it again returns it unchanged.
With equal or missing dates the stable sort preserves and the final reversal
flips each tied block, so idempotence fails there
(`c5_counterexample`-shaped inputs). -/
theorem c5_sort_idempotent_on_distinct_keys (l : List Post)
    (h : List.Pairwise (fun a b => sortKey b < sortKey a) l) :
    sort_posts l = l := by
  unfold sort_posts
  rw [stable_sort_of_strict_desc l h, List.reverse_reverse]

/-- Witness for `c5_sort_idempotent_on_distinct_keys`. -/
theorem c5_sort_idempotent_on_distinct_keys_witness :
    sort_posts [postJun, postJan] = [postJun, postJan] :=
  c5_sort_idempotent_on_distinct_keys [postJun, postJan] (by decide)

/-- C6: on the empty input stream the parser fails with the source-carrying
unexpected-EOF error, not with the missing-front-matter error. -/
theorem c6_empty_stream (exts : Externals) (cfg : Bloggo) (p : RPath) :
    parse_post exts cfg p [] = .error (.unexpectedEOF (pathDisplay p))
    ∧ parse_post exts cfg p [] ≠ .error (.other "Missing front matter.") := by
  refine ⟨rfl, ?_⟩
  intro h
  have h2 : (Except.error (Error.unexpectedEOF (pathDisplay p)) : Except Error Post)
      = .error (.other "Missing front matter.") := h
  injection h2 with h3
  exact Error.noConfusion h3

/-- C7: for a post whose front matter lacks a `date` key, normalization
succeeds (given the path prefixes strip), and the resulting post carries a
`date` exactly when the first ten characters of the destination-relative
path parse as a valid `YYYY-MM-DD` calendar date — in which case the value
is that date formatted as an ISO 8601 timestamp at midnight UTC; otherwise
no `date` key is present and no error is raised. -/
theorem c7_date_derived_from_path (exts : Externals) (cfg : Bloggo) (p : RPath)
    (m : Post) (body : String) (r1 r2 : RPath)
    (h1 : strip_path_root cfg.src_dir p = .ok r1)
    (h2 : strip_path_root ["posts"] r1 = .ok r2)
    (hd : Post.get m "date" = none) :
    ∃ post, normalize_post exts cfg p m body = .ok post
      ∧ Post.get post "date" =
          (match extract_date_from_str (pathDisplay (set_path_extension r2 "html")) with
           | some (y, mo, d) => some (Value.string (format_midnight_iso y mo d))
           | none => none) := by
  simp only [normalize_post, h1, h2]
  have hg : Post.get (Post.insert "url"
      (Value.string (cfg.base_url ++ "/" ++ pathDisplay (set_path_extension r2 "html")))
      (Post.insert "path" (Value.string (pathDisplay (set_path_extension r2 "html")))
        (Post.insert "text"
          (Value.string (if pathExt p = some "md" then exts.mdToHtml body else body)) m)))
      "date" = none := by
    rw [Post.get_insert_ne _ _ _ _ (by decide), Post.get_insert_ne _ _ _ _ (by decide),
      Post.get_insert_ne _ _ _ _ (by decide)]
    exact hd
  simp only [Post.containsKey, hg, Option.isSome_none, Bool.false_eq_true, if_false]
  cases hx : extract_date_from_str (pathDisplay (set_path_extension r2 "html")) with
  | none => exact ⟨_, rfl, hg⟩
  | some ymd =>
    obtain ⟨y, md⟩ := ymd
    obtain ⟨mo, d⟩ := md
    exact ⟨_, rfl, Post.get_insert_self _ "date" _⟩

/-- Witness for `c7_date_derived_from_path`: a source file named after a
date, with empty front matter. -/
theorem c7_date_derived_from_path_witness :
    ∃ post,
      normalize_post extsFix cfgFix ["source", "posts", "2024-01-02-x.md"] [] "b" = .ok post
      ∧ Post.get post "date" =
          (match extract_date_from_str (pathDisplay (set_path_extension ["2024-01-02-x.md"] "html")) with
           | some (y, mo, d) => some (Value.string (format_midnight_iso y mo d))
           | none => none) :=
  c7_date_derived_from_path extsFix cfgFix ["source", "posts", "2024-01-02-x.md"] [] "b"
    ["posts", "2024-01-02-x.md"] ["2024-01-02-x.md"] rfl rfl rfl

/-- C8: the Atom feed is the intro line followed by exactly one entry block
per post, in sequence order, and the closing tag — where each entry block
contains the `<title>`, `<published>` and self-closing `<link href>` lines
exactly when the post's `title`, `date` and `url` fields hold strings, each
populated from the field's value (see `atom_entry_spec`). -/
theorem c8_atom_feed_entries (posts : List Post) :
    generate_atom_feed posts
      = atomIntro :: ((posts.map atom_entry_spec).flatten ++ ["</feed>"]) := by
  unfold generate_atom_feed
  rw [foldl_atom_entries]
  simp

/-- Inversion of `parse_post`: a successful parse went through
`normalize_post` on some front-matter map and body. -/
theorem parse_post_ok_normalize (exts : Externals) (cfg : Bloggo) (p : RPath)
    (content : List String) (post : Post)
    (h : parse_post exts cfg p content = .ok post) :
    ∃ m body, normalize_post exts cfg p m body = .ok post := by
  cases content with
  | nil => exact absurd h (by simp [parse_post])
  | cons line rest =>
    simp only [parse_post] at h
    by_cases hs : strStartsWith line "---" = true
    · rw [if_pos hs] at h
      cases hr : read_until rest "---" with
      | error e =>
        rw [hr] at h
        exact absurd h (by simp)
      | ok pr =>
        obtain ⟨fm, rest2⟩ := pr
        rw [hr] at h
        simp only [finish_post] at h
        cases hy : parse_yaml_data exts.yamlDecode fm with
        | error e =>
          rw [hy] at h
          exact absurd h (by simp)
        | ok v =>
          rw [hy] at h
          cases v with
          | map mm => exact ⟨mm, concatLines rest2, h⟩
          | null => exact absurd h (by simp)
          | boolean b => exact absurd h (by simp)
          | number n => exact absurd h (by simp)
          | string s => exact absurd h (by simp)
          | array xs => exact absurd h (by simp)
    · rw [if_neg hs] at h
      exact absurd h (by simp)

/-- Inversion of `normalize_post`: a successful normalization stripped both
path prefixes, and the resulting post holds the computed `path` and `url`. -/
theorem normalize_post_ok_path_url (exts : Externals) (cfg : Bloggo) (p : RPath)
    (m : Post) (body : String) (post : Post)
    (h : normalize_post exts cfg p m body = .ok post) :
    ∃ r1 r2 : RPath,
      strip_path_root cfg.src_dir p = .ok r1
      ∧ strip_path_root ["posts"] r1 = .ok r2
      ∧ Post.get post "path"
          = some (Value.string (pathDisplay (set_path_extension r2 "html")))
      ∧ Post.get post "url"
          = some (Value.string
              (cfg.base_url ++ "/" ++ pathDisplay (set_path_extension r2 "html"))) := by
  simp only [normalize_post] at h
  cases h1 : strip_path_root cfg.src_dir p with
  | error e =>
    simp only [h1] at h
    exact absurd h (by simp)
  | ok r1 =>
    simp only [h1] at h
    cases h2 : strip_path_root ["posts"] r1 with
    | error e =>
      simp only [h2] at h
      exact absurd h (by simp)
    | ok r2 =>
      simp only [h2] at h
      injection h with hpost
      subst hpost
      refine ⟨r1, r2, rfl, h2, ?_, ?_⟩
      · rw [get_after_maybe_date _ _ _ (by decide)]
        rw [Post.get_insert_ne _ _ _ _ (by decide)]
        exact Post.get_insert_self _ "path" _
      · rw [get_after_maybe_date _ _ _ (by decide)]
        exact Post.get_insert_self _ "url" _

/-- C9: every post `parse_post` returns carries both a `path` key — the
destination-relative path with the extension rewritten to `.html` — and a
`url` key — the base URL, a slash, and that path — whatever the front
matter contained. -/
theorem c9_path_url_always_present (exts : Externals) (cfg : Bloggo) (p : RPath)
    (content : List String) (post : Post)
    (h : parse_post exts cfg p content = .ok post) :
    ∃ r1 r2 : RPath,
      strip_path_root cfg.src_dir p = .ok r1
      ∧ strip_path_root ["posts"] r1 = .ok r2
      ∧ Post.get post "path"
          = some (Value.string (pathDisplay (set_path_extension r2 "html")))
      ∧ Post.get post "url"
          = some (Value.string
              (cfg.base_url ++ "/" ++ pathDisplay (set_path_extension r2 "html"))) := by
  obtain ⟨m, body, hn⟩ := parse_post_ok_normalize exts cfg p content post h
  exact normalize_post_ok_path_url exts cfg p m body post hn

/-- Witness for `c9_path_url_always_present`: a concrete successful parse. -/
theorem c9_path_url_always_present_witness :
    ∃ r1 r2 : RPath,
      strip_path_root cfgFix.src_dir pathFix = .ok r1
      ∧ strip_path_root ["posts"] r1 = .ok r2
      ∧ Post.get postFix "path"
          = some (Value.string (pathDisplay (set_path_extension r2 "html")))
      ∧ Post.get postFix "url"
          = some (Value.string
              (cfgFix.base_url ++ "/" ++ pathDisplay (set_path_extension r2 "html"))) :=
  c9_path_url_always_present extsFix cfgFix pathFix ["---\n", "---\n", "hello"] postFix rfl

/-- C10: delimiter recognition is prefix-based — whenever the first line and
some later line merely start with `---` (whatever else they contain, so
`-----` or `--- extra` both count), parsing proceeds with exactly the lines
strictly between them as the front-matter text and exactly the lines after
the closing line as the body: the closing line's content reaches neither. -/
theorem c10_delimiter_recognition (exts : Externals) (cfg : Bloggo) (p : RPath)
    (l0 d : String) (pre suf : List String)
    (h0 : strStartsWith l0 "---" = true)
    (hpre : ∀ l ∈ pre, strStartsWith l "---" = false)
    (hd : strStartsWith d "---" = true) :
    parse_post exts cfg p (l0 :: (pre ++ d :: suf))
      = finish_post exts cfg p (concatLines pre) suf := by
  simp only [parse_post]
  rw [h0, read_until_split pre suf d "---" hpre hd]
  simp

/-- Witness for `c10_delimiter_recognition`: an over-long closing delimiter
line whose content reaches neither the front matter nor the body. -/
theorem c10_delimiter_recognition_witness :
    strStartsWith "--- open\n" "---" = true
    ∧ strStartsWith "----- junk\n" "---" = true
    ∧ parse_post extsFix cfgFix pathFix ["--- open\n", "a: 1\n", "----- junk\n", "body\n"]
        = finish_post extsFix cfgFix pathFix (concatLines ["a: 1\n"]) ["body\n"] :=
  ⟨by decide, by decide,
    c10_delimiter_recognition extsFix cfgFix pathFix "--- open\n" "----- junk\n"
      ["a: 1\n"] ["body\n"] (by decide) (by decide) (by decide)⟩
